import Mathlib

set_option maxHeartbeats 1000000

/-
  Verification of the meme-maker page (src/mememaker/src/app/page.tsx).

  The source file contains two variants of the same screen: an earlier one
  (no object-URL revocation, no decode-error handling, no aspect snapping)
  and an extended one (revocation effect keyed on the media value, decode
  error handling, aspect snapping, manual font-size override, video export).

  Pure layout arithmetic is embedded over the rationals; the automatic font
  size, which uses a square root, is embedded over the reals.  Stateful and
  asynchronous parts (the drop handler, the object-URL lifecycle, the
  reactive override-clearing effect, and the export recording loop) are
  embedded as explicit state passing over the screen state.
-/

/-- Aspect preset keys, in the enumeration order of the ASPECTS object. -/
inductive AspectKey
  | k1x1 | k3x2 | k2x3 | k4x3 | k3x4 | k16x9 | k9x16
deriving DecidableEq, Repr

/-- Native pixel size of an aspect preset. -/
structure AspectSize where
  w : ℚ
  h : ℚ
deriving DecidableEq, Repr

/-- The constant ASPECTS table from the source. -/
def ASPECTS : AspectKey → AspectSize
  | .k1x1  => ⟨900, 900⟩
  | .k3x2  => ⟨900, 600⟩
  | .k2x3  => ⟨600, 900⟩
  | .k4x3  => ⟨1200, 900⟩
  | .k3x4  => ⟨900, 1200⟩
  | .k16x9 => ⟨1280, 720⟩
  | .k9x16 => ⟨720, 1280⟩

/-- Enumeration order of the keys of the ASPECTS object. -/
def aspectKeys : List AspectKey :=
  [.k1x1, .k3x2, .k2x3, .k4x3, .k3x4, .k16x9, .k9x16]

/-- Effective caption length: the source computes `const len = text.length || 1`,
so a zero-length caption is treated as a caption of length 1. -/
def effLen (text : String) : ℕ :=
  if text.length = 0 then 1 else text.length

/-- getFontSize from the source:
`Math.max(28, Math.min(Math.min(width, height) / Math.max(1.5, Math.sqrt(len / 2)), 120))`. -/
noncomputable def getFontSize (text : String) (width height : ℝ) : ℝ :=
  max 28 (min (min width height / max 1.5 (Real.sqrt ((effLen text : ℝ) / 2))) 120)

/-- Tag of an attached media file. -/
inductive MediaKind
  | image | video
deriving DecidableEq, Repr

/-- The MediaType record of the source; the object URL is abstracted as a
natural-number handle. -/
structure MediaType where
  url : ℕ
  type : MediaKind
  aspectRatio : ℚ
  width : ℚ
  height : ℚ
deriving DecidableEq, Repr

/-- Canvas size computation of the extended variant (lines 307-313):
uniform scaling of the selected preset by
`min (min (maxWidth / aspectSize.w) 1) (min (media.width / aspectSize.w) (media.height / aspectSize.h))`. -/
def canvasSize (windowWidth : ℚ) (aspect : AspectKey) (media : Option MediaType) : ℚ × ℚ :=
  let maxWidth := windowWidth * 0.9
  let aspectSize := ASPECTS aspect
  let widthScale := min (maxWidth / aspectSize.w) 1
  let mediaScale :=
    match media with
    | some m => min (m.width / aspectSize.w) (m.height / aspectSize.h)
    | none => 1
  let scale := min widthScale mediaScale
  (aspectSize.w * scale, aspectSize.h * scale)

/-- Canvas size computation of the earlier variant (lines 50-62): with media
attached the width is locked to `min(maxWidth, media.width)` and the height is
derived from the media's own aspect ratio, overriding the preset. -/
def canvasSizeV1 (windowWidth : ℚ) (aspect : AspectKey) (media : Option MediaType) : ℚ × ℚ :=
  let maxWidth := windowWidth * 0.9
  match media with
  | some m =>
    let desiredWidth := min maxWidth m.width
    (desiredWidth, desiredWidth / m.aspectRatio)
  | none =>
    let aspectSize := ASPECTS aspect
    let scale := min (maxWidth / aspectSize.w) 1
    (aspectSize.w * scale, aspectSize.h * scale)

/-- Absolute difference between a ratio and a preset's native ratio, as used
by findClosestAspect. -/
def aspectDiff (ratio : ℚ) (k : AspectKey) : ℚ :=
  |ratio - (ASPECTS k).w / (ASPECTS k).h|

/-- Comparison of a rational against the running minimum, where `none` stands
for the initial JavaScript `Infinity`. -/
def infLt (a : ℚ) (b : Option ℚ) : Bool :=
  match b with
  | none => true
  | some q => decide (a < q)

/-- One iteration of the findClosestAspect loop: replace the champion iff the
new difference is strictly smaller (so ties keep the earlier key). -/
def stepMin (ratio : ℚ) (acc : AspectKey × Option ℚ) (k : AspectKey) : AspectKey × Option ℚ :=
  if infLt (aspectDiff ratio k) acc.2 then (k, some (aspectDiff ratio k)) else acc

/-- findClosestAspect from the extended variant (lines 275-286): fold over the
enumerated keys starting from closest = '1:1', minDiff = Infinity. -/
def findClosestAspect (ratio : ℚ) : AspectKey :=
  (aspectKeys.foldl (stepMin ratio) (AspectKey.k1x1, none)).1

/-- Media placement mode. -/
inductive Placement
  | center | above | below
deriving DecidableEq, Repr

/-- Screen state of the extended variant's Home component. -/
structure ScreenState where
  mainText : String
  aspect : AspectKey
  media : Option MediaType
  watermarkText : String
  mediaPlacement : Placement
  fontFamily : String
  customFontSize : Option ℚ
  windowWidth : ℚ
deriving DecidableEq, Repr

/-- Initial state of the extended variant's Home component. -/
def homeInitialState : ScreenState :=
  { mainText := "Your Text"
    aspect := AspectKey.k1x1
    media := none
    watermarkText := ""
    mediaPlacement := Placement.center
    fontFamily := "Impact, Arial, sans-serif"
    customFontSize := none
    windowWidth := 0 }

/-- MIME class of a dropped file, as classified by the drop handler. -/
inductive MimeClass
  | image | video | other
deriving DecidableEq, Repr

/-- A dropped file together with the outcome of asynchronously decoding its
metadata: `some (w, h)` is a successful decode reporting natural dimensions,
`none` is a decode failure. -/
structure DroppedFile where
  mime : MimeClass
  decodeResult : Option (ℚ × ℚ)
deriving DecidableEq, Repr

/-- Result of one run of a drop handler: the new screen state plus the object
URLs created and revoked by the handler itself and whether it logged an error. -/
structure DropEffects where
  state : ScreenState
  created : List ℕ
  revoked : List ℕ
  logged : Bool
deriving DecidableEq, Repr

/-- Drop handler of the extended variant (lines 336-383): create an object URL
for the first accepted file; on a successful decode set the media attachment
and snap the aspect to the closest preset; on a decode failure log the error
and revoke the freshly created URL, leaving the state untouched. -/
def onDrop (s : ScreenState) (acceptedFiles : List DroppedFile) (url : ℕ) : DropEffects :=
  match acceptedFiles with
  | [] => ⟨s, [], [], false⟩
  | file :: _ =>
    if file.mime = MimeClass.image then
      match file.decodeResult with
      | some (nw, nh) =>
        ⟨{ s with media := some ⟨url, MediaKind.image, nw / nh, nw, nh⟩
                  aspect := findClosestAspect (nw / nh) }, [url], [], false⟩
      | none => ⟨s, [url], [url], true⟩
    else if file.mime = MimeClass.video then
      match file.decodeResult with
      | some (nw, nh) =>
        ⟨{ s with media := some ⟨url, MediaKind.video, nw / nh, nw, nh⟩
                  aspect := findClosestAspect (nw / nh) }, [url], [], false⟩
      | none => ⟨s, [url], [url], true⟩
    else ⟨s, [url], [], false⟩

/-- URLs held by a media attachment slot. -/
def mediaUrls : Option MediaType → List ℕ
  | some m => [m.url]
  | none => []

/-- How many of a given URL the media slot holds. -/
def mediaCount (media : Option MediaType) (u : ℕ) : ℕ :=
  match media with
  | some m => if m.url = u then 1 else 0
  | none => 0

/-- Lifecycle state of the extended variant's screen: the component state plus
the object URLs created and revoked so far, and the next fresh URL handle. -/
structure LifeState where
  screen : ScreenState
  created : List ℕ
  revoked : List ℕ
  nextUrl : ℕ
deriving DecidableEq, Repr

/-- One drop event in the extended variant.  After the handler runs, the
cleanup of the effect keyed on the media value (lines 324-330) revokes the
previous attachment's URL whenever the media value changed. -/
def stepDrop (ls : LifeState) (file : DroppedFile) : LifeState :=
  let url := ls.nextUrl
  let r := onDrop ls.screen [file] url
  let effectRevoked :=
    if r.state.media = ls.screen.media then [] else mediaUrls ls.screen.media
  { screen := r.state
    created := ls.created ++ r.created
    revoked := ls.revoked ++ r.revoked ++ effectRevoked
    nextUrl := url + 1 }

/-- Screen teardown in the extended variant: the final cleanup of the
revocation effect releases the current attachment's URL. -/
def teardown (ls : LifeState) : LifeState :=
  { ls with
    revoked := ls.revoked ++ mediaUrls ls.screen.media
    screen := { ls.screen with media := none } }

/-- Process a sequence of drop events. -/
def runDrops (ls : LifeState) (files : List DroppedFile) : LifeState :=
  files.foldl stepDrop ls

/-- Freshly mounted extended-variant screen. -/
def initLife : LifeState :=
  ⟨homeInitialState, [], [], 0⟩

/-- Resource-lifecycle invariant of the extended variant: every created URL is
accounted for as either already revoked or held by the (unique) media slot,
created URLs are distinct, and all created URLs are older than the next fresh
handle. -/
def LifeInv (ls : LifeState) : Prop :=
  (∀ u, ls.created.count u = ls.revoked.count u + mediaCount ls.screen.media u)
  ∧ (∀ u ∈ ls.created, u < ls.nextUrl)
  ∧ (∀ m, ls.screen.media = some m → m.url < ls.nextUrl)
  ∧ ls.created.Nodup

/-- Screen state of the earlier variant's Home component. -/
structure ScreenStateV1 where
  mainText : String
  aspect : AspectKey
  media : Option MediaType
  watermarkText : String
  mediaPlacement : Placement
  windowWidth : ℚ
deriving DecidableEq, Repr

/-- Result of one run of the earlier variant's drop handler. -/
structure DropEffectsV1 where
  state : ScreenStateV1
  created : List ℕ
  revoked : List ℕ
  logged : Bool
deriving DecidableEq, Repr

/-- Drop handler of the earlier variant (lines 71-102): create an object URL
and set the media on a successful decode.  There is no error handler: a decode
failure silently does nothing, so the new URL is neither revoked nor is the
failure logged. -/
def onDropV1 (s : ScreenStateV1) (acceptedFiles : List DroppedFile) (url : ℕ) : DropEffectsV1 :=
  match acceptedFiles with
  | [] => ⟨s, [], [], false⟩
  | file :: _ =>
    if file.mime = MimeClass.image then
      match file.decodeResult with
      | some (nw, nh) =>
        ⟨{ s with media := some ⟨url, MediaKind.image, nw / nh, nw, nh⟩ }, [url], [], false⟩
      | none => ⟨s, [url], [], false⟩
    else if file.mime = MimeClass.video then
      match file.decodeResult with
      | some (nw, nh) =>
        ⟨{ s with media := some ⟨url, MediaKind.video, nw / nh, nw, nh⟩ }, [url], [], false⟩
      | none => ⟨s, [url], [], false⟩
    else ⟨s, [url], [], false⟩

/-- Lifecycle state of the earlier variant's screen. -/
structure LifeStateV1 where
  screen : ScreenStateV1
  created : List ℕ
  revoked : List ℕ
  nextUrl : ℕ
deriving DecidableEq, Repr

/-- One drop event in the earlier variant: the variant registers no cleanup
effect for media URLs, so nothing is ever revoked. -/
def stepDropV1 (ls : LifeStateV1) (file : DroppedFile) : LifeStateV1 :=
  let r := onDropV1 ls.screen [file] ls.nextUrl
  ⟨r.state, ls.created ++ r.created, ls.revoked ++ r.revoked, ls.nextUrl + 1⟩

/-- Screen teardown in the earlier variant: no revocation effect exists, so no
URL is released on unmount. -/
def teardownV1 (ls : LifeStateV1) : LifeStateV1 :=
  { ls with screen := { ls.screen with media := none } }

/-- Initial state of the earlier variant's Home component. -/
def initScreenV1 : ScreenStateV1 :=
  { mainText := "Your Text"
    aspect := AspectKey.k1x1
    media := none
    watermarkText := ""
    mediaPlacement := Placement.center
    windowWidth := 0 }

/-- Freshly mounted earlier-variant screen. -/
def initLifeV1 : LifeStateV1 :=
  ⟨initScreenV1, [], [], 0⟩

/-- State-mutating inputs of the extended variant's Home component. -/
inductive HomeAction
  | setMainText (t : String)
  | setAspect (a : AspectKey)
  | setMedia (m : Option MediaType)
  | setWindowWidth (v : ℚ)
  | setCustomFontSize (x : ℚ)
deriving DecidableEq, Repr

/-- Raw state update performed by each setter. -/
def applyRaw (s : ScreenState) : HomeAction → ScreenState
  | .setMainText t => { s with mainText := t }
  | .setAspect a => { s with aspect := a }
  | .setMedia m => { s with media := m }
  | .setWindowWidth v => { s with windowWidth := v }
  | .setCustomFontSize x => { s with customFontSize := some x }

/-- Dependency tuple of the override-clearing effect
`useEffect(() => setCustomFontSize(null), [mainText, aspect, media, windowWidth])`. -/
def fontDeps (s : ScreenState) : String × AspectKey × Option MediaType × ℚ :=
  (s.mainText, s.aspect, s.media, s.windowWidth)

/-- Whether an action changes one of the override-clearing effect's
dependencies. -/
def changesFontDeps (s : ScreenState) : HomeAction → Prop
  | .setMainText t => t ≠ s.mainText
  | .setAspect a => a ≠ s.aspect
  | .setMedia m => m ≠ s.media
  | .setWindowWidth v => v ≠ s.windowWidth
  | .setCustomFontSize _ => False

/-- A state update followed by the override-clearing effect: whenever the
effect's dependencies changed, the manual font-size override is reset. -/
def applyHomeAction (s : ScreenState) (a : HomeAction) : ScreenState :=
  let s1 := applyRaw s a
  if fontDeps s1 = fontDeps s then s1 else { s1 with customFontSize := none }

/-- Automatic font size of the extended variant (line 315):
`getFontSize(mainText, w * 0.85, media ? h * 0.4 : h * 0.8)`. -/
noncomputable def autoFontSize (s : ScreenState) : ℝ :=
  let wh := canvasSize s.windowWidth s.aspect s.media
  getFontSize s.mainText ((wh.1 : ℝ) * 0.85)
    (if s.media.isSome then (wh.2 : ℝ) * 0.4 else (wh.2 : ℝ) * 0.8)

/-- Rendered font size (line 316): `customFontSize ?? autoFontSize`. -/
noncomputable def renderedFontSize (s : ScreenState) : ℝ :=
  match s.customFontSize with
  | some v => (v : ℝ)
  | none => autoFontSize s

/-- Primitive drawing-surface operations issued by the video exporter. -/
inductive DrawOp
  | clearRect (x y w h : ℚ)
  | drawImage (x y w h : ℚ)
  | setFont (size : ℚ) (family : String)
  | setTextAlign (a : String)
  | setTextBaseline (b : String)
  | setFillStyle (c : String)
  | setLineWidth (n : ℚ)
  | setStrokeStyle (c : String)
  | strokeText (text : String) (x y : ℚ) (maxWidth : Option ℚ)
  | fillText (text : String) (x y : ℚ) (maxWidth : Option ℚ)
deriving DecidableEq, Repr

/-- Parameters captured by the video exporter's frame-drawing closures. -/
structure ExportParams where
  w : ℚ
  h : ℚ
  fontSize : ℚ
  fontFamily : String
  mainText : String
  watermarkText : String
deriving DecidableEq, Repr

/-- The drawText closure of the video exporter (lines 431-447). -/
def drawText (p : ExportParams) (x y : ℚ) : List DrawOp :=
  [DrawOp.setFont p.fontSize p.fontFamily,
   DrawOp.setTextAlign "center",
   DrawOp.setTextBaseline "middle",
   DrawOp.setFillStyle "#fff",
   DrawOp.setLineWidth 6,
   DrawOp.setStrokeStyle "#000",
   DrawOp.strokeText p.mainText x y (some (p.w * 0.9)),
   DrawOp.fillText p.mainText x y (some (p.w * 0.9))]
  ++ (if p.watermarkText ≠ "" then
        [DrawOp.setFont (max 10 (p.h * 0.04)) p.fontFamily,
         DrawOp.setTextAlign "right",
         DrawOp.setTextBaseline "bottom",
         DrawOp.strokeText p.watermarkText (p.w - 10) (p.h - 10) none,
         DrawOp.fillText p.watermarkText (p.w - 10) (p.h - 10) none]
      else [])

/-- Caption band height of the exporter: `const textHeight = h / 2`. -/
def textHeight (p : ExportParams) : ℚ := p.h / 2

/-- Media band height of the exporter: `const mediaHeight = h / 2`. -/
def mediaHeight (p : ExportParams) : ℚ := p.h / 2

/-- The drawFrame closure of the video exporter (lines 416-429): one half of
the canvas for the video frame and one half for the caption, with the order
flipped only for the 'above' placement. -/
def drawFrame (p : ExportParams) (placement : Placement) : List DrawOp :=
  DrawOp.clearRect 0 0 p.w p.h ::
  (if placement = Placement.above then
    DrawOp.drawImage 0 0 p.w (mediaHeight p) ::
      drawText p (p.w / 2) (mediaHeight p + textHeight p / 2)
  else
    drawText p (p.w / 2) (textHeight p / 2)
      ++ [DrawOp.drawImage 0 (textHeight p) p.w (mediaHeight p)])

/-- The video element rendered by MediaComponent carries the `loop` attribute
(line 615), so the element restarts playback at its end instead of firing the
'ended' event. -/
def mediaComponentLoop : Bool := true

/-- Abstract state of one video-export recording session. -/
structure RecSim where
  loop : Bool
  duration : ℕ
  pos : ℕ
  recording : Bool
  endedFired : Bool
  downloads : List String
deriving DecidableEq, Repr

/-- Start of downloadVideo (lines 396-451): the recorder is started, the video
is rewound to time 0 and playback begins, before any frame is drawn. -/
def startExport (loop : Bool) (duration : ℕ) : RecSim :=
  { loop := loop, duration := duration, pos := 0
    recording := true, endedFired := false, downloads := [] }

/-- One playback tick of the recording session.  While frames remain the
position advances; at the end of the pass a looping element seeks back to the
start without firing 'ended', while a non-looping element fires 'ended',
which stops the recorder and produces the single meme.webm download
(lines 453-466). -/
def recStep (s : RecSim) : RecSim :=
  if s.endedFired then s
  else if s.pos + 1 < s.duration then { s with pos := s.pos + 1 }
  else if s.loop then { s with pos := 0 }
  else { s with endedFired := true, recording := false
                downloads := s.downloads ++ ["meme.webm"] }

/-- Run a recording session for a number of playback ticks. -/
def recRun (s : RecSim) : ℕ → RecSim
  | 0 => s
  | n + 1 => recRun (recStep s) n

/-- Sample media used by concrete counterexamples: a 2000x1000 image. -/
def mediaWide : MediaType :=
  ⟨0, MediaKind.image, 2, 2000, 1000⟩

/-- Sample dropped image file whose decode fails. -/
def failingImageFile : DroppedFile :=
  ⟨MimeClass.image, none⟩

/-- Sample dropped image file decoding to 100x50. -/
def imageFile100 : DroppedFile :=
  ⟨MimeClass.image, some (100, 50)⟩

/-- Sample dropped image file decoding to 300x300. -/
def imageFile300 : DroppedFile :=
  ⟨MimeClass.image, some (300, 300)⟩

/-- Sample dropped video file decoding to 1920x1080. -/
def videoFile1080 : DroppedFile :=
  ⟨MimeClass.video, some (1920, 1080)⟩

/-- Claim C3: for every caption text (a zero-length caption being treated as a
caption of length 1 inside effLen) and every non-negative available width and
height, the automatic font size computed by getFontSize lies in [28, 120]. -/
theorem c3_font_size_in_range (text : String) (w h : ℝ) (hw : 0 ≤ w) (hh : 0 ≤ h) :
    28 ≤ getFontSize text w h ∧ getFontSize text w h ≤ 120 := by
  unfold getFontSize
  exact ⟨le_max_left _ _, max_le (by norm_num) (min_le_right _ _)⟩

/-- Witness for C3 at the spec's own scenario: caption "Hi" with available
area 765 x 720. -/
theorem c3_font_size_in_range_witness :
    (0:ℝ) ≤ 765 ∧ (0:ℝ) ≤ 720
    ∧ 28 ≤ getFontSize "Hi" 765 720 ∧ getFontSize "Hi" 765 720 ≤ 120 :=
  ⟨by norm_num, by norm_num,
   (c3_font_size_in_range "Hi" 765 720 (by norm_num) (by norm_num)).1,
   (c3_font_size_in_range "Hi" 765 720 (by norm_num) (by norm_num)).2⟩

/-- Claim C9: for fixed width and height, getFontSize is monotonically
non-increasing in the caption's effective length (zero treated as one). -/
theorem c9_font_size_antitone_in_length (t1 t2 : String) (w h : ℝ)
    (hlen : effLen t1 ≤ effLen t2) :
    getFontSize t2 w h ≤ getFontSize t1 w h := by
  unfold getFontSize
  set m := min w h with hm
  set d1 := max (1.5:ℝ) (Real.sqrt ((effLen t1 : ℝ) / 2)) with hd1
  set d2 := max (1.5:ℝ) (Real.sqrt ((effLen t2 : ℝ) / 2)) with hd2
  have hd1pos : (0:ℝ) < d1 := lt_of_lt_of_le (by norm_num) (le_max_left _ _)
  have hd2pos : (0:ℝ) < d2 := lt_of_lt_of_le (by norm_num) (le_max_left _ _)
  have hdd : d1 ≤ d2 := by
    refine max_le_max le_rfl (Real.sqrt_le_sqrt ?_)
    have hc : (effLen t1 : ℝ) ≤ (effLen t2 : ℝ) := by exact_mod_cast hlen
    linarith
  by_cases hm0 : 0 ≤ m
  · have hsz : m / d2 ≤ m / d1 := by
      rw [div_le_div_iff₀ hd2pos hd1pos]
      exact mul_le_mul_of_nonneg_left hdd hm0
    exact max_le_max le_rfl (min_le_min hsz le_rfl)
  · push_neg at hm0
    have h1 : m / d1 < 0 := div_neg_of_neg_of_pos hm0 hd1pos
    have h2 : m / d2 < 0 := div_neg_of_neg_of_pos hm0 hd2pos
    have e1 : max (28:ℝ) (min (m / d1) 120) = 28 :=
      max_eq_left (le_trans (min_le_left _ _) (by linarith))
    have e2 : max (28:ℝ) (min (m / d2) 120) = 28 :=
      max_eq_left (le_trans (min_le_left _ _) (by linarith))
    rw [e1, e2]

/-- Witness for C9: a one-character caption versus a four-character caption. -/
theorem c9_font_size_antitone_in_length_witness :
    effLen "a" ≤ effLen "abcd"
    ∧ getFontSize "abcd" 100 100 ≤ getFontSize "a" 100 100 :=
  ⟨by decide, c9_font_size_antitone_in_length "a" "abcd" 100 100 (by decide)⟩

/-- Claim C10: in the video exporter's frame-drawing routine, 'center' and
'below' produce identical frames; every frame splits the canvas height into
two equal halves (textHeight = mediaHeight = h / 2, the caption centred at
the middle of its half); only 'above' swaps the order of the two halves. -/
theorem c10_draw_frame_halves (p : ExportParams) :
    drawFrame p Placement.center = drawFrame p Placement.below
    ∧ textHeight p = p.h / 2
    ∧ mediaHeight p = p.h / 2
    ∧ drawFrame p Placement.above
        = DrawOp.clearRect 0 0 p.w p.h :: DrawOp.drawImage 0 0 p.w (p.h / 2)
            :: drawText p (p.w / 2) (3 * p.h / 4)
    ∧ drawFrame p Placement.center
        = DrawOp.clearRect 0 0 p.w p.h ::
            (drawText p (p.w / 2) (p.h / 4)
              ++ [DrawOp.drawImage 0 (p.h / 2) p.w (p.h / 2)])
    ∧ drawFrame p Placement.above ≠ drawFrame p Placement.center := by
  have habove : p.h / 2 + p.h / 2 / 2 = 3 * p.h / 4 := by ring
  have hhalf : p.h / 2 / 2 = p.h / 4 := by ring
  refine ⟨rfl, rfl, rfl, ?_, ?_, ?_⟩
  · simp [drawFrame, mediaHeight, textHeight, habove]
  · simp [drawFrame, mediaHeight, textHeight, hhalf]
  · intro hcontra
    simp [drawFrame, drawText, mediaHeight, textHeight] at hcontra

/-- Every preset has positive native width. -/
theorem aspects_w_pos (p : AspectKey) : 0 < (ASPECTS p).w := by
  cases p <;> norm_num [ASPECTS]

/-- Every preset has positive native height. -/
theorem aspects_h_pos (p : AspectKey) : 0 < (ASPECTS p).h := by
  cases p <;> norm_num [ASPECTS]

/-- Scaling a positive base by a factor bounded by `x / base` stays below x. -/
theorem base_mul_le_of_le_div (base x s : ℚ) (hb : 0 < base) (hs : s ≤ x / base) :
    base * s ≤ x := by
  have h2 := (le_div_iff₀ hb).mp hs
  linarith

/-- Counterexample to claim C1 as stated: in the earlier variant with a
2000-pixel-wide media attached and a large viewport, the computed canvas width
is 2000, which exceeds the selected '1:1' preset's native width 900. -/
theorem c1_counterexample :
    (0:ℚ) ≤ 4000
    ∧ (canvasSizeV1 4000 AspectKey.k1x1 (some mediaWide)).1 = 2000
    ∧ ¬ (canvasSizeV1 4000 AspectKey.k1x1 (some mediaWide)).1 ≤ (ASPECTS AspectKey.k1x1).w := by
  refine ⟨by norm_num, ?_, ?_⟩ <;> norm_num [canvasSizeV1, mediaWide, ASPECTS]

/-- Claim C1 (amended): for every viewport width V ≥ 0, preset and media
state, the computed canvas width is at most 0.9 * V in both sizing variants;
it also never exceeds the preset's native width in the extended variant, and
in the earlier variant whenever no media is attached (with media attached
the earlier variant locks the width to min(0.9 * V, media.width), which can
exceed the preset's native width). -/
theorem c1_canvas_width_bounds (V : ℚ) (p : AspectKey) (media : Option MediaType)
    (hV : 0 ≤ V) :
    ((canvasSize V p media).1 ≤ 0.9 * V ∧ (canvasSize V p media).1 ≤ (ASPECTS p).w)
    ∧ (canvasSizeV1 V p media).1 ≤ 0.9 * V
    ∧ (media = none → (canvasSizeV1 V p media).1 ≤ (ASPECTS p).w) := by
  have haw := aspects_w_pos p
  refine ⟨⟨?_, ?_⟩, ?_, ?_⟩
  · -- extended variant, width fits in 0.9 * V
    cases media with
    | none =>
      show (ASPECTS p).w * min (min (V * 0.9 / (ASPECTS p).w) 1) 1 ≤ 0.9 * V
      have hs : min (min (V * 0.9 / (ASPECTS p).w) 1) 1 ≤ V * 0.9 / (ASPECTS p).w :=
        le_trans (min_le_left _ _) (min_le_left _ _)
      have := base_mul_le_of_le_div (ASPECTS p).w (V * 0.9) _ haw hs
      linarith
    | some m =>
      show (ASPECTS p).w *
          min (min (V * 0.9 / (ASPECTS p).w) 1)
            (min (m.width / (ASPECTS p).w) (m.height / (ASPECTS p).h)) ≤ 0.9 * V
      have hs : min (min (V * 0.9 / (ASPECTS p).w) 1)
            (min (m.width / (ASPECTS p).w) (m.height / (ASPECTS p).h))
          ≤ V * 0.9 / (ASPECTS p).w :=
        le_trans (min_le_left _ _) (min_le_left _ _)
      have := base_mul_le_of_le_div (ASPECTS p).w (V * 0.9) _ haw hs
      linarith
  · -- extended variant, width never exceeds the preset's native width
    cases media with
    | none =>
      show (ASPECTS p).w * min (min (V * 0.9 / (ASPECTS p).w) 1) 1 ≤ (ASPECTS p).w
      have hs : min (min (V * 0.9 / (ASPECTS p).w) 1) 1 ≤ 1 :=
        le_trans (min_le_left _ _) (min_le_right _ _)
      calc (ASPECTS p).w * min (min (V * 0.9 / (ASPECTS p).w) 1) 1
          ≤ (ASPECTS p).w * 1 := mul_le_mul_of_nonneg_left hs (le_of_lt haw)
        _ = (ASPECTS p).w := mul_one _
    | some m =>
      show (ASPECTS p).w *
          min (min (V * 0.9 / (ASPECTS p).w) 1)
            (min (m.width / (ASPECTS p).w) (m.height / (ASPECTS p).h)) ≤ (ASPECTS p).w
      have hs : min (min (V * 0.9 / (ASPECTS p).w) 1)
            (min (m.width / (ASPECTS p).w) (m.height / (ASPECTS p).h)) ≤ 1 :=
        le_trans (min_le_left _ _) (min_le_right _ _)
      calc (ASPECTS p).w * min (min (V * 0.9 / (ASPECTS p).w) 1)
            (min (m.width / (ASPECTS p).w) (m.height / (ASPECTS p).h))
          ≤ (ASPECTS p).w * 1 := mul_le_mul_of_nonneg_left hs (le_of_lt haw)
        _ = (ASPECTS p).w := mul_one _
  · -- earlier variant, width fits in 0.9 * V
    cases media with
    | none =>
      show (ASPECTS p).w * min (V * 0.9 / (ASPECTS p).w) 1 ≤ 0.9 * V
      have hs : min (V * 0.9 / (ASPECTS p).w) 1 ≤ V * 0.9 / (ASPECTS p).w :=
        min_le_left _ _
      have := base_mul_le_of_le_div (ASPECTS p).w (V * 0.9) _ haw hs
      linarith
    | some m =>
      show min (V * 0.9) m.width ≤ 0.9 * V
      have := min_le_left (V * 0.9) m.width
      linarith
  · -- earlier variant without media, width never exceeds the preset width
    intro hnone
    subst hnone
    show (ASPECTS p).w * min (V * 0.9 / (ASPECTS p).w) 1 ≤ (ASPECTS p).w
    have hs : min (V * 0.9 / (ASPECTS p).w) 1 ≤ 1 := min_le_right _ _
    calc (ASPECTS p).w * min (V * 0.9 / (ASPECTS p).w) 1
        ≤ (ASPECTS p).w * 1 := mul_le_mul_of_nonneg_left hs (le_of_lt haw)
      _ = (ASPECTS p).w := mul_one _

/-- Witness for C1 at the spec's scenario: viewport 500, preset '1:1',
no media. -/
theorem c1_canvas_width_bounds_witness :
    (0:ℚ) ≤ 500
    ∧ (canvasSize 500 AspectKey.k1x1 none).1 ≤ 0.9 * 500
    ∧ (canvasSizeV1 500 AspectKey.k1x1 none).1 ≤ (ASPECTS AspectKey.k1x1).w :=
  ⟨by norm_num,
   (c1_canvas_width_bounds 500 AspectKey.k1x1 none (by norm_num)).1.1,
   (c1_canvas_width_bounds 500 AspectKey.k1x1 none (by norm_num)).2.2 rfl⟩

/-- Claim C2: with media attached, the extended variant's canvas dimensions
equal the selected preset's (w, h) multiplied by the single scale factor
min(0.9 * V / preset.w, media.width / preset.w, media.height / preset.h, 1);
hence the canvas keeps the preset's aspect ratio, fits within 0.9 * V, and
does not exceed the media's natural resolution in either axis. -/
theorem c2_canvas_media_scaling (V : ℚ) (p : AspectKey) (m : MediaType) :
    canvasSize V p (some m)
      = ((ASPECTS p).w *
           min (min (V * 0.9 / (ASPECTS p).w) (m.width / (ASPECTS p).w))
             (min (m.height / (ASPECTS p).h) 1),
         (ASPECTS p).h *
           min (min (V * 0.9 / (ASPECTS p).w) (m.width / (ASPECTS p).w))
             (min (m.height / (ASPECTS p).h) 1))
    ∧ (canvasSize V p (some m)).1 * (ASPECTS p).h
        = (canvasSize V p (some m)).2 * (ASPECTS p).w
    ∧ (canvasSize V p (some m)).1 ≤ 0.9 * V
    ∧ (canvasSize V p (some m)).1 ≤ m.width
    ∧ (canvasSize V p (some m)).2 ≤ m.height := by
  have haw := aspects_w_pos p
  have hah := aspects_h_pos p
  have hgroup : min (min (V * 0.9 / (ASPECTS p).w) 1)
        (min (m.width / (ASPECTS p).w) (m.height / (ASPECTS p).h))
      = min (min (V * 0.9 / (ASPECTS p).w) (m.width / (ASPECTS p).w))
          (min (m.height / (ASPECTS p).h) 1) := by
    rw [min_min_min_comm, min_comm 1 (m.height / (ASPECTS p).h)]
  refine ⟨?_, ?_, ?_, ?_, ?_⟩
  · show ((ASPECTS p).w * min (min (V * 0.9 / (ASPECTS p).w) 1)
        (min (m.width / (ASPECTS p).w) (m.height / (ASPECTS p).h)),
      (ASPECTS p).h * min (min (V * 0.9 / (ASPECTS p).w) 1)
        (min (m.width / (ASPECTS p).w) (m.height / (ASPECTS p).h))) = _
    rw [hgroup]
  · show ((ASPECTS p).w * min (min (V * 0.9 / (ASPECTS p).w) 1)
          (min (m.width / (ASPECTS p).w) (m.height / (ASPECTS p).h))) * (ASPECTS p).h
        = ((ASPECTS p).h * min (min (V * 0.9 / (ASPECTS p).w) 1)
          (min (m.width / (ASPECTS p).w) (m.height / (ASPECTS p).h))) * (ASPECTS p).w
    ring
  · show (ASPECTS p).w * min (min (V * 0.9 / (ASPECTS p).w) 1)
        (min (m.width / (ASPECTS p).w) (m.height / (ASPECTS p).h)) ≤ 0.9 * V
    have hs : min (min (V * 0.9 / (ASPECTS p).w) 1)
          (min (m.width / (ASPECTS p).w) (m.height / (ASPECTS p).h))
        ≤ V * 0.9 / (ASPECTS p).w :=
      le_trans (min_le_left _ _) (min_le_left _ _)
    have := base_mul_le_of_le_div (ASPECTS p).w (V * 0.9) _ haw hs
    linarith
  · show (ASPECTS p).w * min (min (V * 0.9 / (ASPECTS p).w) 1)
        (min (m.width / (ASPECTS p).w) (m.height / (ASPECTS p).h)) ≤ m.width
    have hs : min (min (V * 0.9 / (ASPECTS p).w) 1)
          (min (m.width / (ASPECTS p).w) (m.height / (ASPECTS p).h))
        ≤ m.width / (ASPECTS p).w :=
      le_trans (min_le_right _ _) (min_le_left _ _)
    exact base_mul_le_of_le_div (ASPECTS p).w m.width _ haw hs
  · show (ASPECTS p).h * min (min (V * 0.9 / (ASPECTS p).w) 1)
        (min (m.width / (ASPECTS p).w) (m.height / (ASPECTS p).h)) ≤ m.height
    have hs : min (min (V * 0.9 / (ASPECTS p).w) 1)
          (min (m.width / (ASPECTS p).w) (m.height / (ASPECTS p).h))
        ≤ m.height / (ASPECTS p).h :=
      le_trans (min_le_right _ _) (min_le_right _ _)
    exact base_mul_le_of_le_div (ASPECTS p).h m.height _ hah hs

/-- Minimum comparison against Infinity is always true. -/
theorem infLt_none_eq (a : ℚ) : infLt a none = true := rfl

/-- Minimum comparison against a finite running minimum. -/
theorem infLt_some_iff (a q : ℚ) : infLt a (some q) = true ↔ a < q := by
  simp [infLt]

/-- Failed minimum comparison against a finite running minimum. -/
theorem infLt_some_false_iff (a q : ℚ) : infLt a (some q) = false ↔ q ≤ a := by
  simp [infLt]

/-- Behaviour of the findClosestAspect fold: either no key ever beats the
initial running minimum and the accumulator survives unchanged, or the result
is a key of the list carrying its own difference as the final minimum, every
key strictly before it in the list has strictly larger difference (ties keep
the earlier key), and every key after it has no smaller difference. -/
theorem foldl_stepMin_spec (ratio : ℚ) (l : List AspectKey) :
    ∀ (c : AspectKey) (d : Option ℚ),
      (l.foldl (stepMin ratio) (c, d) = (c, d)
        ∧ ∀ k ∈ l, infLt (aspectDiff ratio k) d = false)
      ∨ ((l.foldl (stepMin ratio) (c, d)).2
            = some (aspectDiff ratio (l.foldl (stepMin ratio) (c, d)).1)
          ∧ infLt (aspectDiff ratio (l.foldl (stepMin ratio) (c, d)).1) d = true
          ∧ ∃ l1 l2, l = l1 ++ (l.foldl (stepMin ratio) (c, d)).1 :: l2
              ∧ (∀ k ∈ l1, aspectDiff ratio (l.foldl (stepMin ratio) (c, d)).1
                    < aspectDiff ratio k)
              ∧ (∀ k ∈ l2, aspectDiff ratio (l.foldl (stepMin ratio) (c, d)).1
                    ≤ aspectDiff ratio k)) := by
  induction l with
  | nil =>
    intro c d
    left
    exact ⟨rfl, by simp⟩
  | cons k ks ih =>
    intro c d
    by_cases hk : infLt (aspectDiff ratio k) d = true
    · have hstep : stepMin ratio (c, d) k = (k, some (aspectDiff ratio k)) := by
        simp [stepMin, hk]
      rw [List.foldl_cons, hstep]
      rcases ih k (some (aspectDiff ratio k)) with
        ⟨heq, hall⟩ | ⟨hval, hlt, l1, l2, hsplit, hl1, hl2⟩
      · right
        rw [heq]
      
        refine ⟨rfl, hk, [], ks, by simp, by simp, ?_⟩
        intro k2 hk2
        exact (infLt_some_false_iff _ _).mp (hall k2 hk2)
      · right
        have hrk : aspectDiff ratio (ks.foldl (stepMin ratio) (k, some (aspectDiff ratio k))).1
            < aspectDiff ratio k := (infLt_some_iff _ _).mp hlt
        refine ⟨hval, ?_, k :: l1, l2, by rw [List.cons_append, ← hsplit], ?_, hl2⟩
        · cases d with
          | none => rfl
          | some q =>
            have hq : aspectDiff ratio k < q := (infLt_some_iff _ _).mp hk
            exact (infLt_some_iff _ _).mpr (lt_trans hrk hq)
        · intro k2 hk2
          rcases List.mem_cons.mp hk2 with h | h
          · rw [h]; exact hrk
          · exact hl1 k2 h
    · have hkf : infLt (aspectDiff ratio k) d = false := by
        cases hb : infLt (aspectDiff ratio k) d
        · rfl
        · exact absurd hb hk
      have hstep : stepMin ratio (c, d) k = (c, d) := by
        simp [stepMin, hkf]
      rw [List.foldl_cons, hstep]
      rcases ih c d with ⟨heq, hall⟩ | ⟨hval, hlt, l1, l2, hsplit, hl1, hl2⟩
      · left
        refine ⟨heq, ?_⟩
        intro k2 hk2
        rcases List.mem_cons.mp hk2 with h | h
        · rw [h]; exact hkf
        · exact hall k2 h
      · right
        refine ⟨hval, hlt, k :: l1, l2, by rw [List.cons_append, ← hsplit], ?_, hl2⟩
        intro k2 hk2
        rcases List.mem_cons.mp hk2 with h | h
        · rw [h]
          cases d with
          | none => simp [infLt] at hkf
          | some q =>
            have h1 : aspectDiff ratio (ks.foldl (stepMin ratio) (c, some q)).1 < q :=
              (infLt_some_iff _ _).mp hlt
            have h2 : q ≤ aspectDiff ratio k := (infLt_some_false_iff _ _).mp hkf
            exact lt_of_lt_of_le h1 h2
        · exact hl1 k2 h

/-- findClosestAspect returns the enumerated key of smallest absolute ratio
difference, ties resolved in favour of the earliest key in enumeration
order. -/
theorem findClosestAspect_first_argmin (ratio : ℚ) :
    (∀ k ∈ aspectKeys,
        aspectDiff ratio (findClosestAspect ratio) ≤ aspectDiff ratio k)
    ∧ ∃ l1 l2, aspectKeys = l1 ++ findClosestAspect ratio :: l2
        ∧ ∀ k ∈ l1, aspectDiff ratio (findClosestAspect ratio) < aspectDiff ratio k := by
  unfold findClosestAspect
  rcases foldl_stepMin_spec ratio aspectKeys AspectKey.k1x1 none with
    ⟨heq, hall⟩ | ⟨hval, hlt, l1, l2, hsplit, hl1, hl2⟩
  · exfalso
    have := hall AspectKey.k1x1 (by simp [aspectKeys])
    simp [infLt] at this
  · constructor
    · intro k hk
      rw [hsplit] at hk
      rcases List.mem_append.mp hk with h | h
      · exact le_of_lt (hl1 k h)
      · rcases List.mem_cons.mp h with h | h
        · exact le_of_eq (by rw [h])
        · exact hl2 k h
    · exact ⟨l1, l2, hsplit, hl1⟩

/-- Claim C7: after a successful media decode, the extended variant's drop
handler sets the selected aspect to the enumerated preset whose native ratio
has the smallest absolute difference from the media's natural ratio, ties
resolved in favour of the earliest preset in enumeration order; in particular
a 1920x1080 video selects the '16:9' preset. -/
theorem c7_aspect_snap_closest (s : ScreenState) (f : DroppedFile) (url : ℕ) (nw nh : ℚ)
    (hmime : f.mime = MimeClass.image ∨ f.mime = MimeClass.video)
    (hdec : f.decodeResult = some (nw, nh)) :
    (onDrop s [f] url).state.aspect = findClosestAspect (nw / nh)
    ∧ (∀ k ∈ aspectKeys,
        aspectDiff (nw / nh) (findClosestAspect (nw / nh)) ≤ aspectDiff (nw / nh) k)
    ∧ (∃ l1 l2, aspectKeys = l1 ++ findClosestAspect (nw / nh) :: l2
        ∧ ∀ k ∈ l1,
            aspectDiff (nw / nh) (findClosestAspect (nw / nh)) < aspectDiff (nw / nh) k)
    ∧ findClosestAspect (1920 / 1080) = AspectKey.k16x9 := by
  have hgen := findClosestAspect_first_argmin (nw / nh)
  refine ⟨?_, hgen.1, hgen.2, ?_⟩
  · rcases hmime with h | h <;> simp [onDrop, h, hdec]
  · norm_num [findClosestAspect, aspectKeys, stepMin, aspectDiff, ASPECTS, infLt, abs]

/-- Witness for C7: dropping the 1920x1080 sample video on the initial screen
selects the '16:9' preset. -/
theorem c7_aspect_snap_closest_witness :
    (videoFile1080.mime = MimeClass.image ∨ videoFile1080.mime = MimeClass.video)
    ∧ videoFile1080.decodeResult = some (1920, 1080)
    ∧ (onDrop homeInitialState [videoFile1080] 0).state.aspect = AspectKey.k16x9 := by
  have h := c7_aspect_snap_closest homeInitialState videoFile1080 0 1920 1080
    (Or.inr rfl) rfl
  exact ⟨Or.inr rfl, rfl, by rw [h.1, h.2.2.2]⟩

/-- Counterexample to claim C5 as stated: the earlier variant's drop handler
(lines 76-100) has no decode-failure path, so on a failed decode the freshly
allocated URL is not released and nothing is logged. -/
theorem c5_counterexample :
    failingImageFile.mime = MimeClass.image
    ∧ failingImageFile.decodeResult = none
    ∧ (onDropV1 initScreenV1 [failingImageFile] 0).created = [0]
    ∧ ¬ ((onDropV1 initScreenV1 [failingImageFile] 0).revoked = [0]
        ∧ (onDropV1 initScreenV1 [failingImageFile] 0).logged = true) := by
  norm_num [onDropV1, failingImageFile, initScreenV1]

/-- Claim C5 (amended): on a decode failure the extended variant's drop
handler releases exactly the URL it had just allocated, logs the failure and
leaves the whole screen state (the previous attachment included) unchanged;
the earlier variant's handler likewise leaves the state unchanged but
releases nothing and logs nothing. -/
theorem c5_decode_failure_effects (s : ScreenState) (f : DroppedFile) (url : ℕ)
    (hmime : f.mime = MimeClass.image ∨ f.mime = MimeClass.video)
    (hdec : f.decodeResult = none) :
    (onDrop s [f] url).state = s
    ∧ (onDrop s [f] url).created = [url]
    ∧ (onDrop s [f] url).revoked = [url]
    ∧ (onDrop s [f] url).logged = true
    ∧ ∀ (s1 : ScreenStateV1),
        (onDropV1 s1 [f] url).state = s1
        ∧ (onDropV1 s1 [f] url).revoked = []
        ∧ (onDropV1 s1 [f] url).logged = false := by
  rcases hmime with h | h <;>
    exact ⟨by simp [onDrop, h, hdec], by simp [onDrop, h, hdec],
      by simp [onDrop, h, hdec], by simp [onDrop, h, hdec],
      fun s1 => ⟨by simp [onDropV1, h, hdec], by simp [onDropV1, h, hdec],
        by simp [onDropV1, h, hdec]⟩⟩

/-- Witness for C5 at a concrete failing image drop with URL handle 7. -/
theorem c5_decode_failure_effects_witness :
    (failingImageFile.mime = MimeClass.image ∨ failingImageFile.mime = MimeClass.video)
    ∧ failingImageFile.decodeResult = none
    ∧ (onDrop homeInitialState [failingImageFile] 7).state = homeInitialState
    ∧ (onDrop homeInitialState [failingImageFile] 7).revoked = [7]
    ∧ (onDrop homeInitialState [failingImageFile] 7).logged = true := by
  have h := c5_decode_failure_effects homeInitialState failingImageFile 7 (Or.inl rfl) rfl
  exact ⟨Or.inl rfl, rfl, h.1, h.2.2.1, h.2.2.2.1⟩

/-- Counting a URL in the media slot's URL list agrees with mediaCount. -/
theorem mediaUrls_count (media : Option MediaType) (u : ℕ) :
    (mediaUrls media).count u = mediaCount media u := by
  cases media with
  | none => rfl
  | some m => simp [mediaUrls, mediaCount, List.count_singleton']

/-- Occurrence count in a singleton URL list. -/
theorem count_singleton_ite (a u : ℕ) : [a].count u = if a = u then 1 else 0 := by
  simp [List.count_singleton']

/-- Counting in a media slot holding a known attachment. -/
theorem mediaCount_some (m : MediaType) (u : ℕ) :
    mediaCount (some m) u = if m.url = u then 1 else 0 := rfl

/-- One accepted drop preserves the extended variant's resource-lifecycle
invariant. -/
theorem stepDrop_inv (ls : LifeState) (f : DroppedFile)
    (hmime : f.mime = MimeClass.image ∨ f.mime = MimeClass.video)
    (hinv : LifeInv ls) : LifeInv (stepDrop ls f) := by
  obtain ⟨hbal, hfresh, hmfresh, hnd⟩ := hinv
  rcases hdec : f.decodeResult with _ | ⟨nw, nh⟩
  · -- decode failure: the handler revokes the fresh URL itself, media unchanged
    have honDrop : onDrop ls.screen [f] ls.nextUrl
        = ⟨ls.screen, [ls.nextUrl], [ls.nextUrl], true⟩ := by
      rcases hmime with h | h <;> simp [onDrop, h, hdec]
    have hstep : stepDrop ls f
        = ⟨ls.screen, ls.created ++ [ls.nextUrl],
           ls.revoked ++ [ls.nextUrl] ++ [], ls.nextUrl + 1⟩ := by
      simp [stepDrop, honDrop]
    rw [hstep]
    unfold LifeInv
    dsimp only
    refine ⟨?_, ?_, ?_, ?_⟩
    · intro u
      have hb := hbal u
      simp only [List.count_append, count_singleton_ite, List.count_nil]
      split_ifs <;> omega
    · intro u hu
      rcases List.mem_append.mp hu with h | h
      · have := hfresh u h; omega
      · simp at h; omega
    · intro m hm
      have := hmfresh m hm; omega
    · rw [List.nodup_append]
      refine ⟨hnd, by simp, ?_⟩
      intro a ha hb
      simp at hb
      subst hb
      have := hfresh _ ha
      omega
  · -- successful decode: media replaced, effect cleanup revokes the old URL
    have honDrop : ∃ mk, onDrop ls.screen [f] ls.nextUrl
        = ⟨{ ls.screen with
               media := some ⟨ls.nextUrl, mk, nw / nh, nw, nh⟩
               aspect := findClosestAspect (nw / nh) },
           [ls.nextUrl], [], false⟩ := by
      rcases hmime with h | h
      · exact ⟨MediaKind.image, by simp [onDrop, h, hdec]⟩
      · exact ⟨MediaKind.video, by simp [onDrop, h, hdec]⟩
    obtain ⟨mk, honDrop⟩ := honDrop
    have hchanged :
        some (⟨ls.nextUrl, mk, nw / nh, nw, nh⟩ : MediaType) ≠ ls.screen.media := by
      cases hm : ls.screen.media with
      | none => simp
      | some m =>
        intro hcontra
        have hinj : (⟨ls.nextUrl, mk, nw / nh, nw, nh⟩ : MediaType) = m :=
          Option.some.inj hcontra
        have hurl : ls.nextUrl = m.url := by rw [← hinj]
        have := hmfresh m hm
        omega
    have hstep : stepDrop ls f
        = ⟨{ ls.screen with
               media := some ⟨ls.nextUrl, mk, nw / nh, nw, nh⟩
               aspect := findClosestAspect (nw / nh) },
           ls.created ++ [ls.nextUrl],
           ls.revoked ++ [] ++ mediaUrls ls.screen.media, ls.nextUrl + 1⟩ := by
      simp only [stepDrop, honDrop]
      rw [if_neg hchanged]
    rw [hstep]
    unfold LifeInv
    dsimp only
    refine ⟨?_, ?_, ?_, ?_⟩
    · intro u
      have hb := hbal u
      simp only [List.count_append, mediaUrls_count, count_singleton_ite,
        List.count_nil, mediaCount_some]
      dsimp only
      split_ifs <;> omega
    · intro u hu
      rcases List.mem_append.mp hu with h | h
      · have := hfresh u h; omega
      · simp at h; omega
    · intro m hm
      have hinj := Option.some.inj hm
      have : m.url = ls.nextUrl := by rw [← hinj]
      omega
    · rw [List.nodup_append]
      refine ⟨hnd, by simp, ?_⟩
      intro a ha hb
      simp at hb
      subst hb
      have := hfresh _ ha
      omega

/-- A sequence of accepted drops preserves the lifecycle invariant. -/
theorem runDrops_inv (files : List DroppedFile) :
    ∀ ls, LifeInv ls → (∀ f ∈ files, f.mime = MimeClass.image ∨ f.mime = MimeClass.video) →
      LifeInv (runDrops ls files) := by
  induction files with
  | nil => intro ls h _; exact h
  | cons f fs ih =>
    intro ls h hacc
    have h1 := stepDrop_inv ls f (hacc f (by simp)) h
    have h2 := ih (stepDrop ls f) h1 (fun g hg => hacc g (by simp [hg]))
    simpa [runDrops] using h2

/-- The freshly mounted screen satisfies the lifecycle invariant. -/
theorem initLife_inv : LifeInv initLife :=
  ⟨fun u => by simp [initLife, homeInitialState, mediaCount],
   by simp [initLife],
   by simp [initLife, homeInitialState],
   by simp [initLife]⟩

/-- Counterexample to claim C6 as stated: the earlier variant (lines 71-102)
registers no revocation at all, so after one successful drop and teardown the
created URL has been released zero times, not exactly once. -/
theorem c6_counterexample :
    imageFile100.mime = MimeClass.image
    ∧ (teardownV1 (stepDropV1 initLifeV1 imageFile100)).created = [0]
    ∧ (teardownV1 (stepDropV1 initLifeV1 imageFile100)).revoked = []
    ∧ ¬ (teardownV1 (stepDropV1 initLifeV1 imageFile100)).revoked.count 0 = 1 := by
  norm_num [teardownV1, stepDropV1, initLifeV1, onDropV1, imageFile100, initScreenV1]

/-- Claim C6 (amended): in the extended variant, over a lifetime of accepted
drops followed by screen teardown, every object URL created for a dropped
file is revoked exactly once (on replacement via the media-change effect, on
decode failure in the handler, or on teardown), no URL is revoked that was
never created, and created URLs are pairwise distinct; in particular
attaching a second file releases the first attachment's URL exactly once
(already before teardown).  The earlier variant never releases URLs. -/
theorem c6_url_released_exactly_once (files : List DroppedFile)
    (hacc : ∀ f ∈ files, f.mime = MimeClass.image ∨ f.mime = MimeClass.video) :
    (∀ u ∈ (teardown (runDrops initLife files)).created,
        (teardown (runDrops initLife files)).revoked.count u = 1)
    ∧ (∀ u, u ∉ (teardown (runDrops initLife files)).created →
        (teardown (runDrops initLife files)).revoked.count u = 0)
    ∧ (teardown (runDrops initLife files)).created.Nodup
    ∧ (runDrops initLife [imageFile100, imageFile300]).revoked.count 0 = 1 := by
  obtain ⟨hbal, hfresh, hmfresh, hnd⟩ := runDrops_inv files initLife initLife_inv hacc
  have htd_created : (teardown (runDrops initLife files)).created
      = (runDrops initLife files).created := rfl
  have htd_rev : ∀ u, (teardown (runDrops initLife files)).revoked.count u
      = (runDrops initLife files).revoked.count u
        + mediaCount (runDrops initLife files).screen.media u := by
    intro u
    simp [teardown, List.count_append, mediaUrls_count]
  have hfinbal : ∀ u, (runDrops initLife files).created.count u
      = (teardown (runDrops initLife files)).revoked.count u := by
    intro u
    rw [htd_rev, ← hbal u]
  refine ⟨?_, ?_, ?_, ?_⟩
  · intro u hu
    rw [htd_created] at hu
    have h1 : (runDrops initLife files).created.count u ≤ 1 :=
      List.nodup_iff_count_le_one.mp hnd u
    have h2 : ¬ (runDrops initLife files).created.count u = 0 := by
      rw [List.count_eq_zero]
      exact fun hc => hc hu
    have h3 := hfinbal u
    omega
  · intro u hu
    rw [htd_created] at hu
    have h2 : (runDrops initLife files).created.count u = 0 :=
      List.count_eq_zero.mpr hu
    have h3 := hfinbal u
    omega
  · rw [htd_created]; exact hnd
  · norm_num [runDrops, stepDrop, initLife, onDrop, imageFile100, imageFile300,
      homeInitialState, mediaUrls, findClosestAspect, aspectKeys, stepMin,
      aspectDiff, ASPECTS, infLt, abs]

/-- Witness for C6: a single accepted drop whose URL is revoked exactly once
by teardown. -/
theorem c6_url_released_exactly_once_witness :
    (∀ f ∈ [imageFile100], f.mime = MimeClass.image ∨ f.mime = MimeClass.video)
    ∧ (teardown (runDrops initLife [imageFile100])).revoked.count 0 = 1 := by
  have hacc : ∀ f ∈ [imageFile100], f.mime = MimeClass.image ∨ f.mime = MimeClass.video := by
    intro f hf
    simp only [List.mem_singleton] at hf
    subst hf
    exact Or.inl rfl
  have h := c6_url_released_exactly_once [imageFile100] hacc
  refine ⟨hacc, h.1 0 ?_⟩
  norm_num [teardown, runDrops, stepDrop, initLife, onDrop, imageFile100,
    homeInitialState, mediaUrls, findClosestAspect, aspectKeys, stepMin,
    aspectDiff, ASPECTS, infLt, abs]

/-- An action that changes a dependency of the override-clearing effect
changes the effect's dependency tuple. -/
theorem changesFontDeps_ne (s : ScreenState) (a : HomeAction)
    (hch : changesFontDeps s a) :
    fontDeps (applyRaw s a) ≠ fontDeps s := by
  cases a with
  | setMainText t => exact fun hc => hch (congrArg (fun q => q.1) hc)
  | setAspect a2 => exact fun hc => hch (congrArg (fun q => q.2.1) hc)
  | setMedia m => exact fun hc => hch (congrArg (fun q => q.2.2.1) hc)
  | setWindowWidth v => exact fun hc => hch (congrArg (fun q => q.2.2.2) hc)
  | setCustomFontSize x => exact absurd hch (by simp [changesFontDeps])

/-- When the dependency tuple changes, the effect clears the override. -/
theorem applyHomeAction_of_changed (s : ScreenState) (a : HomeAction)
    (h : fontDeps (applyRaw s a) ≠ fontDeps s) :
    applyHomeAction s a = { applyRaw s a with customFontSize := none } := by
  simp only [applyHomeAction]
  rw [if_neg h]

/-- Claim C8: when the manual font-size override is set, the rendered font
size equals the override verbatim; and any change to the caption text, the
aspect selection, the attached media, or the viewport width resets the
override, so the automatic size applies again. -/
theorem c8_manual_override_reset :
    (∀ (s : ScreenState) (v : ℚ), s.customFontSize = some v →
        renderedFontSize s = (v : ℝ))
    ∧ ∀ (s : ScreenState) (a : HomeAction), changesFontDeps s a →
        (applyHomeAction s a).customFontSize = none
        ∧ renderedFontSize (applyHomeAction s a)
            = autoFontSize (applyHomeAction s a) := by
  constructor
  · intro s v h
    simp [renderedFontSize, h]
  · intro s a hch
    have hne := changesFontDeps_ne s a hch
    have heq := applyHomeAction_of_changed s a hne
    have hclear : (applyHomeAction s a).customFontSize = none := by rw [heq]
    exact ⟨hclear, by simp [renderedFontSize, hclear]⟩

/-- Witness for C8: an override of 50 is rendered verbatim, and changing the
caption text clears it. -/
theorem c8_manual_override_reset_witness :
    ({ homeInitialState with customFontSize := some (50:ℚ) } : ScreenState).customFontSize
        = some (50:ℚ)
    ∧ renderedFontSize { homeInitialState with customFontSize := some (50:ℚ) }
        = ((50:ℚ) : ℝ)
    ∧ changesFontDeps { homeInitialState with customFontSize := some (50:ℚ) }
        (HomeAction.setMainText "Hello")
    ∧ (applyHomeAction { homeInitialState with customFontSize := some (50:ℚ) }
        (HomeAction.setMainText "Hello")).customFontSize = none := by
  have hch : changesFontDeps { homeInitialState with customFontSize := some (50:ℚ) }
      (HomeAction.setMainText "Hello") := by
    show ("Hello" : String) ≠ "Your Text"
    decide
  have h1 := c8_manual_override_reset.1
    { homeInitialState with customFontSize := some (50:ℚ) } 50 rfl
  have h2 := c8_manual_override_reset.2
    { homeInitialState with customFontSize := some (50:ℚ) }
    (HomeAction.setMainText "Hello") hch
  exact ⟨rfl, h1, hch, h2.1⟩

/-- With the element looping, the recording session never fires 'ended',
never stops and never downloads, for any number of playback ticks. -/
theorem recRun_loop_never_stops : ∀ (n : ℕ) (s : RecSim),
    s.loop = true → s.endedFired = false → s.pos < s.duration →
    s.recording = true → s.downloads = [] →
    (recRun s n).recording = true ∧ (recRun s n).endedFired = false
      ∧ (recRun s n).downloads = [] := by
  intro n
  induction n with
  | zero =>
    intro s _ h2 _ h4 h5
    exact ⟨h4, h2, h5⟩
  | succ k ih =>
    intro s h1 h2 h3 h4 h5
    simp only [recRun]
    by_cases hp : s.pos + 1 < s.duration
    · have hstep : recStep s = { s with pos := s.pos + 1 } := by
        simp [recStep, h2, hp]
      rw [hstep]
      exact ih _ h1 h2 hp h4 h5
    · have hstep : recStep s = { s with pos := 0 } := by
        simp [recStep, h2, hp, h1]
      rw [hstep]
      exact ih _ h1 h2 (show 0 < s.duration by omega) h4 h5

/-- Without looping, the recording session stops exactly at the end of the
single playback pass and produces the meme.webm download. -/
theorem recRun_finishes : ∀ (n : ℕ) (s : RecSim),
    s.loop = false → s.endedFired = false → s.pos + n + 1 = s.duration →
    (recRun s (n + 1)).recording = false
    ∧ (recRun s (n + 1)).endedFired = true
    ∧ (recRun s (n + 1)).downloads = s.downloads ++ ["meme.webm"] := by
  intro n
  induction n with
  | zero =>
    intro s h1 h2 h3
    have hp : ¬ s.pos + 1 < s.duration := by omega
    have hstep : recStep s
        = { s with
            endedFired := true
            recording := false
            downloads := s.downloads ++ ["meme.webm"] } := by
      simp [recStep, h2, hp, h1]
    simp only [recRun]
    rw [hstep]
    exact ⟨rfl, rfl, rfl⟩
  | succ k ih =>
    intro s h1 h2 h3
    have hp : s.pos + 1 < s.duration := by omega
    have hstep : recStep s = { s with pos := s.pos + 1 } := by
      simp [recStep, h2, hp]
    simp only [recRun]
    rw [hstep]
    exact ih _ h1 h2 (show s.pos + 1 + k + 1 = s.duration by omega)

/-- Claim C4 evaluated on the code: the preview video element rendered by
MediaComponent carries the loop attribute, so during downloadVideo the
'ended' signal never fires: the recording never stops and no meme.webm is
ever produced, for any positive clip length and any number of playback
ticks.  Were the element not looping, one pass would stop the recorder at
the clip's end and produce exactly one meme.webm download. -/
theorem c4_loop_blocks_video_export :
    mediaComponentLoop = true
    ∧ (∀ (d n : ℕ), 0 < d →
        (recRun (startExport mediaComponentLoop d) n).recording = true
        ∧ (recRun (startExport mediaComponentLoop d) n).endedFired = false
        ∧ (recRun (startExport mediaComponentLoop d) n).downloads = [])
    ∧ (∀ d : ℕ, 0 < d →
        (recRun (startExport false d) d).recording = false
        ∧ (recRun (startExport false d) d).endedFired = true
        ∧ (recRun (startExport false d) d).downloads = ["meme.webm"]) := by
  refine ⟨rfl, ?_, ?_⟩
  · intro d n hd
    exact recRun_loop_never_stops n (startExport mediaComponentLoop d)
      rfl rfl (show (0:ℕ) < d from hd) rfl rfl
  · intro d hd
    obtain ⟨h1, h2, h3⟩ := recRun_finishes (d - 1) (startExport false d)
      rfl rfl (show 0 + (d - 1) + 1 = d by omega)
    have hd1 : d - 1 + 1 = d := by omega
    rw [hd1] at h1 h2 h3
    exact ⟨h1, h2, by simpa using h3⟩

/-- Witness for C4's model at a five-tick clip. -/
theorem c4_loop_blocks_video_export_witness :
    (0:ℕ) < 5
    ∧ (recRun (startExport mediaComponentLoop 5) 100).downloads = []
    ∧ (recRun (startExport false 5) 5).downloads = ["meme.webm"] :=
  ⟨by decide,
   (c4_loop_blocks_video_export.2.1 5 100 (by decide)).2.2,
   (c4_loop_blocks_video_export.2.2 5 (by decide)).2.2⟩
